import Mathlib

/-!
# Verification of the cc-wrapped statement-parsing pipeline

A shallow embedding, in Lean 4, of the transaction-extraction and
report-aggregation core of the `cc-wrapped` repository
(`backend/app/services/utils.py`, `backend/app/services/parser.py`,
`backend/app/api/cards.py`), together with theorems settling the frozen
claims about it.

Modelling conventions:
* Python `str` is Lean `String`; character-level work is done on `List Char`.
* Python `float` amounts are modelled as `ℚ` (exact arithmetic; the code
  performs no operation whose result the claims distinguish from exact
  arithmetic).
* Table cells (`pdfplumber` output) are `Option String` (`none` models the
  Python `None` cell).
* Character classes (`\d`, `\s`, `.upper()`, `.strip()`) are modelled over
  ASCII; the fixed marker strings and patterns in the source are all ASCII.
* Fallible code paths are `Option`/`Except`; a Python exception observable
  by the claims is an `Except.error`.
-/

namespace CCWrapped

/-- ASCII whitespace, the characters matched by Python `\s` / `str.strip()`
on the ASCII range: space, tab, newline, vertical tab, form feed,
carriage return. -/
def pyIsSpace (c : Char) : Bool :=
  c == ' ' || c == '\t' || c == '\n' || c == '\x0b' || c == '\x0c' || c == '\r'

/-- Numeric value of an ASCII digit. -/
def digitVal (c : Char) : Nat := c.toNat - 48

/-- Value of a digit list read as a base-10 natural number. -/
def decNat (ds : List Char) : Nat := ds.foldl (fun a c => a * 10 + digitVal c) 0

/-- Python `float(s)` on an unsigned string made of digits and dots:
a maximal digit run, optionally followed by `.` and a digit run, at least
one digit in total, nothing else.  `none` models `ValueError`.  The result
is returned as `(integer part, fraction digits value, fraction length)`,
denoting `ip + fr / 10^k`. -/
def pyFloatBody? (cs : List Char) : Option (Nat × Nat × Nat) :=
  let intp := cs.takeWhile Char.isDigit
  let rest := cs.drop intp.length
  match rest with
  | [] => if intp.isEmpty then none else some (decNat intp, 0, 0)
  | '.' :: frac =>
      if frac.all Char.isDigit && (!intp.isEmpty || !frac.isEmpty) then
        some (decNat intp, decNat frac, frac.length)
      else none
  | _ => none

/-- Python `float(s)` on the character set `[\d.-]` that survives
`parse_amount`'s filter: an optional leading `-` (the `Bool` of the result)
then an unsigned body. -/
def pyFloatR? (cs : List Char) : Option (Bool × Nat × Nat × Nat) :=
  match cs with
  | '-' :: rest => (pyFloatBody? rest).map (fun p => (true, p))
  | _ => (pyFloatBody? cs).map (fun p => (false, p))

/-- The rational denoted by a parsed float `(sign, ip, fr, k)`:
`±(ip + fr / 10^k)`. -/
def ratOfParts (p : Bool × Nat × Nat × Nat) : ℚ :=
  let v : ℚ := (p.2.1 : ℚ) + (p.2.2.1 : ℚ) / (10 : ℚ) ^ p.2.2.2
  if p.1 then -v else v

/-- The characters kept by `re.sub(r'[^\d.-]', '', amount_str)`. -/
def isAmtChar (c : Char) : Bool := c.isDigit || c == '.' || c == '-'

/-- `utils.parse_amount`: strip every character that is not a digit, `.`
or `-`, then parse as a float; parse failure yields `0.0`. -/
def parse_amount (s : String) : ℚ :=
  match pyFloatR? (s.data.filter isAmtChar) with
  | some p => ratOfParts p
  | none => 0

/-- `desc.replace('\n', ' ')`. -/
def replNl (l : List Char) : List Char := l.map (fun c => if c == '\n' then ' ' else c)

/-- `re.sub(r'\s+', ' ', cleaned)`, scanned left to right: the first
character of a whitespace run emits one space, the rest of the run emits
nothing.  The flag records whether the previous character was whitespace. -/
def collapseGo : Bool → List Char → List Char
  | _, [] => []
  | inWs, c :: rest =>
      if pyIsSpace c then
        if inWs then collapseGo true rest else ' ' :: collapseGo true rest
      else c :: collapseGo false rest

/-- `re.sub(r'\s+', ' ', cleaned)`: every maximal whitespace run becomes a
single space. -/
def collapseWs (l : List Char) : List Char := collapseGo false l

/-- Python `str.strip()` on a character list: drop whitespace from both ends. -/
def pyStripL (l : List Char) : List Char :=
  ((l.dropWhile pyIsSpace).reverse.dropWhile pyIsSpace).reverse

/-- Python `str.strip()`. -/
def pyStrip (s : String) : String := ⟨pyStripL s.data⟩

/-- The character-list body of `utils.clean_description`. -/
def cleanList (l : List Char) : List Char := pyStripL (collapseWs (replNl l))

/-- `utils.clean_description`: empty (falsy) input returns `""`; otherwise
replace newlines by spaces, collapse whitespace runs to single spaces, and
strip both ends. -/
def clean_description (s : String) : String :=
  if s = "" then "" else ⟨cleanList s.data⟩

/-- Python `str.upper()` (ASCII). -/
def pyUpper (s : String) : String := ⟨s.data.map Char.toUpper⟩

/-- Python `str.lower()` (ASCII). -/
def pyLower (s : String) : String := ⟨s.data.map Char.toLower⟩

/-- `needle` occurs as a contiguous sublist of `hay`. -/
def infixOfL (needle : List Char) : List Char → Bool
  | [] => needle.isEmpty
  | c :: rest => needle.isPrefixOf (c :: rest) || infixOfL needle rest

/-- Python `sub in hay` (substring containment). -/
def strContains (hay sub : String) : Bool := infixOfL sub.data hay.data

/-- `l.endswith(suffix)` on character lists. -/
def endsWithL (l suffix : List Char) : Bool := suffix.reverse.isPrefixOf l.reverse

/-- `parse_amount` on a character list (the string's characters). -/
def parse_amountL (l : List Char) : ℚ :=
  match pyFloatR? (l.filter isAmtChar) with
  | some p => ratOfParts p
  | none => 0

/-- The boilerplate markers of `utils.is_footer_row`. -/
def skipPatterns : List String :=
  ["END OF STATEMENT", "PAYMENT SUMMARY", "ACCOUNT SUMMARY", "CARD NO:",
   "TOTAL AMOUNT", "OPENING BALANCE", "CLOSING BALANCE", "STATEMENT PERIOD"]

/-- `utils.is_footer_row`: falsy text is not a footer; otherwise true iff the
uppercased text contains one of the fixed boilerplate markers. -/
def is_footer_row (row_text : String) : Bool :=
  if row_text = "" then false
  else skipPatterns.any (fun p => strContains (pyUpper row_text) p)

/-- The string-level part of `utils.detect_credit_transaction`: strip; a
trailing `' Cr'` marks credit and is removed, a trailing `' Dr'` is removed;
then a leading `'+'` marks credit and is removed.  Returns the remaining
characters and the credit flag. -/
def detectCreditR (amount_str : String) : List Char × Bool :=
  let l0 := pyStripL amount_str.data
  let (l1, cr1) :=
    if endsWithL l0 [' ', 'C', 'r'] then (pyStripL (l0.take (l0.length - 3)), true)
    else if endsWithL l0 [' ', 'D', 'r'] then (pyStripL (l0.take (l0.length - 3)), false)
    else (l0, false)
  match l1 with
  | '+' :: t => (pyStripL t, true)
  | _ => (l1, cr1)

/-- `utils.detect_credit_transaction`: the credit-suffix stripping above,
then `parse_amount` on what remains. -/
def detect_credit_transaction (amount_str : String) : ℚ × Bool :=
  (parse_amountL (detectCreditR amount_str).1, (detectCreditR amount_str).2)

/-- A parsed `datetime` (only the calendar date is ever used). -/
structure PyDate where
  year : Nat
  month : Nat
  day : Nat
deriving DecidableEq, Repr

/-- Two leading ASCII digits, as `strptime`'s two-digit component match. -/
def twoDigit? : List Char → Option (Nat × List Char)
  | a :: b :: rest =>
      if a.isDigit && b.isDigit then some (10 * digitVal a + digitVal b, rest) else none
  | _ => none

/-- `strptime` `%d`: `3[01]|[12]\d|0[1-9]|[1-9]` — the two-digit
alternatives (day 1–31) then the one-digit alternative, in match order. -/
def dayCands (cs : List Char) : List (Nat × List Char) :=
  (match twoDigit? cs with
   | some (v, rest) => if 1 ≤ v && v ≤ 31 then [(v, rest)] else []
   | none => []) ++
  (match cs with
   | a :: rest => if a.isDigit && 1 ≤ digitVal a then [(digitVal a, rest)] else []
   | [] => [])

/-- `strptime` `%m`: `1[0-2]|0[1-9]|[1-9]`. -/
def monthCands (cs : List Char) : List (Nat × List Char) :=
  (match twoDigit? cs with
   | some (v, rest) => if 1 ≤ v && v ≤ 12 then [(v, rest)] else []
   | none => []) ++
  (match cs with
   | a :: rest => if a.isDigit && 1 ≤ digitVal a then [(digitVal a, rest)] else []
   | [] => [])

/-- `strptime` `%Y`: exactly four digits. -/
def year4? : List Char → Option (Nat × List Char)
  | a :: b :: c :: d :: rest =>
      if a.isDigit && b.isDigit && c.isDigit && d.isDigit then
        some (1000 * digitVal a + 100 * digitVal b + 10 * digitVal c + digitVal d, rest)
      else none
  | _ => none

/-- `strptime` `%y`: exactly two digits; `yy ≤ 68` maps to `2000 + yy`,
otherwise `1900 + yy`. -/
def year2? (cs : List Char) : Option (Nat × List Char) :=
  match twoDigit? cs with
  | some (v, rest) => some (if v ≤ 68 then 2000 + v else 1900 + v, rest)
  | none => none

def isLeap (y : Nat) : Bool := (y % 4 == 0 && y % 100 != 0) || y % 400 == 0

def daysInMonth (y m : Nat) : Nat :=
  if m = 2 then (if isLeap y then 29 else 28)
  else if m = 4 || m = 6 || m = 9 || m = 11 then 30
  else 31

/-- `datetime(year, month, day)` construction succeeds. -/
def validDate (y m d : Nat) : Bool :=
  1 ≤ y && y ≤ 9999 && 1 ≤ m && m ≤ 12 && 1 ≤ d && d ≤ daysInMonth y m

/-- One `strptime` day-month-year format with separator `sep`; `year2`
selects the two-digit-year variant.  The whole string must be consumed. -/
def tryFormat (sep : Char) (year2 : Bool) (cs : List Char) : Option PyDate :=
  (dayCands cs).findSome? fun dc =>
    match dc.2 with
    | s1 :: r2 =>
        if s1 = sep then
          (monthCands r2).findSome? fun mc =>
            match mc.2 with
            | s2 :: r4 =>
                if s2 = sep then
                  match (if year2 then year2? r4 else year4? r4) with
                  | some (y, []) =>
                      if validDate y mc.1 dc.1 then some ⟨y, mc.1, dc.1⟩ else none
                  | _ => none
                else none
            | [] => none
        else none
    | [] => none

/-- `utils.parse_date`: the six literal day-month-year formats, first match
wins; `none` models parse failure. -/
def parse_date (s : String) : Option PyDate :=
  (tryFormat '/' false s.data).orElse fun _ =>
  (tryFormat '-' false s.data).orElse fun _ =>
  (tryFormat '.' false s.data).orElse fun _ =>
  (tryFormat '/' true s.data).orElse fun _ =>
  (tryFormat '-' true s.data).orElse fun _ =>
  tryFormat '.' true s.data

example : parse_date "31/12/2023" = some ⟨2023, 12, 31⟩ := by decide

example : parse_date "01-01-24" = some ⟨2024, 1, 1⟩ := by decide

example : parse_date "31/02/2023" = none := by decide

example : parse_date "hello" = none := by decide

example : detect_credit_transaction "1,000.00 Cr" = (1000, true) := by
  have h : detectCreditR "1,000.00 Cr" = ("1,000.00".data, true) := by decide
  have h2 : pyFloatR? ("1,000.00".data.filter isAmtChar) = some (false, 1000, 0, 2) := by decide
  rw [detect_credit_transaction, h]
  norm_num [parse_amountL, h2, ratOfParts]

example : clean_description "AMAZON\n  PAYMENT  " = "AMAZON PAYMENT" := by decide

/-! ## Tables and raw transactions (`parser.py`) -/

/-- A `pdfplumber` table cell: `none` models Python `None` (and, for the
single `isinstance(…, str)` test, any non-string cell). -/
abbrev Cell := Option String

abbrev TRow := List Cell

abbrev Table := List TRow

/-- Python truthiness of a cell: `None` and `""` are falsy. -/
def cellTruthy : Cell → Bool
  | none => false
  | some s => s ≠ ""

/-- Python `str(cell)`. -/
def cellStr : Cell → String
  | none => "None"
  | some s => s

/-- The dictionaries produced by the extraction strategies. -/
structure RawTxn where
  date : PyDate
  description : String
  amount : ℚ
  currency : String
  is_credit : Bool
  category : Option String
deriving Repr

/-- Consume exactly `n` ASCII digits. -/
def eatDigits : Nat → List Char → Option (List Char)
  | 0, cs => some cs
  | _ + 1, [] => none
  | n + 1, c :: cs => if c.isDigit then eatDigits n cs else none

/-- Consume exactly the character `ch`. -/
def eatChar (ch : Char) : List Char → Option (List Char)
  | [] => none
  | c :: cs => if c = ch then some cs else none

/-- Consume `\s*` (greedy). -/
def eatWs (cs : List Char) : List Char := cs.dropWhile pyIsSpace

/-- `re` pattern `\d{2}/\d{2}/\d{4}\s*\|\s*\d{2}:\d{2}` matched at the head
of the list (each `\s*` is deterministic: the following required character
is never whitespace). -/
def hdfcDTAt (cs : List Char) : Bool :=
  (do
    let r ← eatDigits 2 cs
    let r ← eatChar '/' r
    let r ← eatDigits 2 r
    let r ← eatChar '/' r
    let r ← eatDigits 4 r
    let r ← eatChar '|' (eatWs r)
    let r ← eatDigits 2 (eatWs r)
    let r ← eatChar ':' r
    let r ← eatDigits 2 r
    pure r).isSome

/-- `pattern.search(s)`: some suffix position matches. -/
def searchB (p : List Char → Bool) : List Char → Bool
  | [] => p []
  | c :: rest => p (c :: rest) || searchB p rest

/-- `HDFCParser.can_parse`: non-empty table whose first row has exactly one
cell, and some of the first five rows has a string first cell in which the
date-`|`-time pattern occurs. -/
def hdfcCanParse (table : Table) : Bool :=
  match table with
  | [] => false
  | r0 :: _ =>
      if r0.length ≠ 1 then false
      else (table.take 5).any fun row =>
        match row with
        | some s :: _ => searchB hdfcDTAt s.data
        | _ => false

def isAsciiLetter (c : Char) : Bool := ('A' ≤ c && c ≤ 'Z') || ('a' ≤ c && c ≤ 'z')

/-- The deterministic tail `\s+(?P<amount>[\d,]+\.\d{2})\s*[A-Za-z]?$` of
the HDFC row pattern, applied to the part after the description: at least
one whitespace, a maximal `[\d,]` run, `.`, exactly two digits, optional
whitespace, an optional single letter, end of input.  Returns the `amount`
capture. -/
def checkU (u : List Char) : Option (List Char) :=
  let ws := u.takeWhile pyIsSpace
  if ws.isEmpty then none
  else
    let v := u.drop ws.length
    let a1 := v.takeWhile (fun c => c.isDigit || c == ',')
    if a1.isEmpty then none
    else
      match v.drop a1.length with
      | '.' :: d1 :: d2 :: v3 =>
          if d1.isDigit && d2.isDigit then
            match v3.dropWhile pyIsSpace with
            | [] => some (a1 ++ '.' :: [d1, d2])
            | [c] => if isAsciiLetter c then some (a1 ++ '.' :: [d1, d2]) else none
            | _ => none
          else none
      | _ => none

/-- The lazy `(?P<desc>.*?)` loop: try the shortest description first,
growing it while the deterministic tail fails. -/
def goDesc : List Char → List Char → Option (List Char × List Char)
  | dacc, [] =>
      match checkU [] with
      | some amt => some (dacc, amt)
      | none => none
  | dacc, c :: u' =>
      match checkU (c :: u') with
      | some amt => some (dacc, amt)
      | none => goDesc (dacc ++ [c]) u'

/-- The greedy `\s+` before the description: try the longest whitespace run
first (backtracking shorter runs prepends whitespace to the lazy
description). -/
def tryW (t : List Char) : Nat → Option (List Char × List Char)
  | 0 => none
  | w + 1 =>
      match goDesc [] (t.drop (w + 1)) with
      | some r => some r
      | none => tryW t w

/-- `\s+(?P<desc>.*?)\s+(?P<amount>[\d,]+\.\d{2})\s*[A-Za-z]?$` on the part
after the time: `(description, amount)` captures in backtracking order. -/
def matchTail (t : List Char) : Option (List Char × List Char) :=
  tryW t (t.takeWhile pyIsSpace).length

/-- The full HDFC row pattern anchored at the head of `cs`:
`(date, desc, amount)` captures. -/
def hdfcMatchAt (cs : List Char) : Option (List Char × List Char × List Char) := do
  let r ← eatDigits 2 cs
  let r ← eatChar '/' r
  let r ← eatDigits 2 r
  let r ← eatChar '/' r
  let r ← eatDigits 4 r
  let r ← eatChar '|' (eatWs r)
  let r ← eatDigits 2 (eatWs r)
  let r ← eatChar ':' r
  let r ← eatDigits 2 r
  let (d, a) ← matchTail r
  pure (cs.take 10, d, a)

/-- `hdfc_pattern.search`: leftmost match of the full row pattern. -/
def hdfcSearchM : List Char → Option (List Char × List Char × List Char)
  | [] => none
  | c :: rest =>
      match hdfcMatchAt (c :: rest) with
      | some r => some r
      | none => hdfcSearchM rest

/-- One iteration of `HDFCParser.extract_transactions`'s row loop on the
(string) first cell: search the row pattern on the newline-flattened line,
strip the `'+ C'` / `' C'` suffix (only `'+ C'` marks a credit), parse the
date, parse the amount, clean the description. -/
def hdfcRow (full_line : String) : Option RawTxn :=
  let line := full_line.data.map (fun c => if c == '\n' then ' ' else c)
  match hdfcSearchM line with
  | none => none
  | some (dateC, descC, amtC) =>
      let desc0 := pyStripL descC
      let (desc1, is_credit) :=
        if endsWithL desc0 ['+', ' ', 'C'] then (pyStripL (desc0.take (desc0.length - 3)), true)
        else if endsWithL desc0 [' ', 'C'] then (pyStripL (desc0.take (desc0.length - 2)), false)
        else (desc0, false)
      match parse_date ⟨dateC⟩ with
      | none => none
      | some dt =>
          some { date := dt, description := clean_description ⟨desc1⟩,
                 amount := parse_amountL amtC, currency := "INR",
                 is_credit := is_credit, category := none }

/-- `HDFCParser.extract_transactions`: when the first row has exactly one
cell, run the row pattern over every row's first cell (skipping empty rows
and non-string cells); otherwise no transactions.  (The Python code indexes
`table[0]` unguarded; called on an empty table it would raise, which the
caller's `try/except` turns into no transactions — modelled by `[]`.) -/
def hdfcExtract (table : Table) : List RawTxn :=
  match table with
  | [] => []
  | r0 :: _ =>
      if r0.length = 1 then
        table.flatMap fun row =>
          match row with
          | some s :: _ => (hdfcRow s).toList
          | _ => []
      else []

example :
    hdfcRow "01/02/2024 | 10:15 AMAZON PAY 1,234.56 X" =
      some { date := ⟨2024, 2, 1⟩, description := "AMAZON PAY",
             amount := parse_amountL "1,234.56".data, currency := "INR",
             is_credit := false, category := none } := by
  have h : hdfcSearchM ("01/02/2024 | 10:15 AMAZON PAY 1,234.56 X".data.map
      (fun c => if c == '\n' then ' ' else c)) =
      some ("01/02/2024".data, "AMAZON PAY".data, "1,234.56".data) := by decide
  rw [hdfcRow, h]
  rfl

/-! ## Axis parser -/

/-- `str(h).upper().strip() if h else ''` applied to a header cell. -/
def headerUp (h : Cell) : String :=
  match h with
  | some s => if s ≠ "" then pyStrip (pyUpper s) else ""
  | none => ""

/-- `AxisParser.can_parse`, with the one Python exception it can raise made
explicit: on a table of length `≥ 2` whose first row is empty,
`str(raw_headers[0])` raises `IndexError` (`.error ()`).  Otherwise: the
header row (row 1 instead of row 0 when row 0's first cell contains
`'PAYMENT SUMMARY'`) must contain `DATE`, `TRANSACTION` and `AMOUNT`
tokens. -/
def axisCanParseE (table : Table) : Except Unit Bool :=
  match table with
  | r0 :: r1 :: _ =>
      match r0 with
      | [] => .error ()
      | h0 :: _ =>
          let raw_headers :=
            if strContains (pyUpper (cellStr h0)) "PAYMENT SUMMARY" then r1 else h0 :: r0.tail
          let hs := raw_headers.map headerUp
          .ok ((hs.any fun h => strContains h "DATE") &&
               (hs.any fun h => strContains h "TRANSACTION") &&
               (hs.any fun h => strContains h "AMOUNT"))
  | _ => .ok false

/-- `AxisParser.can_parse` as the boolean the pipeline sees when it does not
raise (`false` on the raising input never reaches extraction). -/
def axisCanParse (table : Table) : Bool :=
  match axisCanParseE table with
  | .ok b => b
  | .error _ => false

/-- First index whose header contains `sub` (the `-1` sentinel is `none`). -/
def findHdrIdx (hs : List String) (sub : String) : Option Nat :=
  hs.findIdx? fun h => strContains h sub

/-- The merged-cell description reconstruction of
`AxisParser.extract_transactions`: the non-empty, non-`'NONE'` stripped
cells from the description column up to the category (else amount) column,
joined by single spaces. -/
def axisDescStr (row : TRow) (descIdx endIdx : Nat) : Option String :=
  if descIdx < row.length then
    let idxs := (List.range (min endIdx row.length)).drop descIdx
    let parts := idxs.filterMap fun i =>
      match row.getD i none with
      | some s =>
          let t := pyStrip s
          if t ≠ "" && pyUpper t ≠ "NONE" then some t else none
      | none => none
    if parts.isEmpty then none else some (String.intercalate " " parts)
  else none

/-- One data row of `AxisParser.extract_transactions`. -/
def axisRow (dateIdx descIdx : Nat) (catIdx : Option Nat) (amtIdx : Nat)
    (row : TRow) : Option RawTxn :=
  if row.isEmpty then none
  else if (match row.head? with
           | some (some s) => s ≠ "" && is_footer_row s
           | _ => false) then none
  else
    let d_str : Cell := if dateIdx < row.length then row.getD dateIdx none else none
    let endIdx := match catIdx with | some c => c | none => amtIdx
    let desc_str := axisDescStr row descIdx endIdx
    let category_str : Cell :=
      match catIdx with
      | some c => if c < row.length then row.getD c none else none
      | none => none
    let amt_str : Cell := if amtIdx < row.length then row.getD amtIdx none else none
    match d_str, desc_str, amt_str with
    | some d, some desc, some a =>
        if d = "" || a = "" then none
        else
          match parse_date (pyStrip d) with
          | none => none
          | some dt =>
              let (amt, is_credit) := detect_credit_transaction (pyStrip a)
              if amt = 0 then none
              else
                let category : Option String :=
                  match category_str with
                  | some c => if c ≠ "" && pyStrip c ≠ "" then some (pyStrip c) else none
                  | none => none
                some { date := dt, description := clean_description desc,
                       amount := amt, currency := "INR",
                       is_credit := is_credit, category := category }
    | _, _, _ => none

/-- `AxisParser.extract_transactions`: resolve the column indices from the
header row (row 1 when row 0 is the `'PAYMENT SUMMARY'` banner), then run
the row logic over the data rows.  (When the first row is empty the Python
code would raise on `raw_headers[0]`; the caller's `try/except` yields no
transactions, and the pipeline never calls it in that state — modelled by
`[]`.) -/
def axisExtract (table : Table) : List RawTxn :=
  match table with
  | r0 :: r1 :: rest =>
      match r0 with
      | [] => []
      | h0 :: _ =>
          let raw_headers :=
            if strContains (pyUpper (cellStr h0)) "PAYMENT SUMMARY" then r1 else h0 :: r0.tail
          let hs := raw_headers.map headerUp
          match findHdrIdx hs "DATE", findHdrIdx hs "TRANSACTION", findHdrIdx hs "AMOUNT" with
          | some dateIdx, some descIdx, some amtIdx =>
              let catIdx := findHdrIdx hs "MERCHANT CATEGORY"
              (r1 :: rest).filterMap (axisRow dateIdx descIdx catIdx amtIdx)
          | _, _, _ => []
  | _ => []

/-! ## Standard parser -/

/-- `[str(h).lower() for h in table[0] if h]`: the truthy header cells,
lowercased.  (Indices into this filtered list are later applied to the raw
rows — a faithful quirk of the source.) -/
def stdHeaders (r0 : TRow) : List String :=
  (r0.filter cellTruthy).map fun c => pyLower (cellStr c)

/-- `StandardParser.can_parse`: the lowercased headers contain (by exact
list membership) a date keyword, a description keyword and an amount
keyword. -/
def standardCanParse (table : Table) : Bool :=
  match table with
  | [] => false
  | r0 :: _ =>
      if r0.isEmpty then false
      else
        let headers := stdHeaders r0
        (["date", "transaction date", "posting date"].any fun k => headers.contains k) &&
        (["description", "details", "particulars"].any fun k => headers.contains k) &&
        (["amount", "debit", "amt"].any fun k => headers.contains k)

/-- One data row of `StandardParser.extract_transactions`. -/
def stdRow (dateIdx descIdx amtIdx : Nat) (row : TRow) : Option RawTxn :=
  if row.length ≤ max (max dateIdx descIdx) amtIdx then none
  else
    match row.getD dateIdx none, row.getD descIdx none, row.getD amtIdx none with
    | some d, some desc, some a =>
        if d = "" || desc = "" || a = "" then none
        else
          match parse_date (pyStrip d) with
          | none => none
          | some dt =>
              some { date := dt, description := clean_description desc,
                     amount := parse_amount (pyStrip a), currency := "INR",
                     is_credit := false, category := none }
    | _, _, _ => none

/-- `StandardParser.extract_transactions`: resolve indices by substring
search over the filtered lowercased headers, then run the row logic over
the data rows.  Every record is a debit (`is_credit = false`) with no
category. -/
def standardExtract (table : Table) : List RawTxn :=
  match table with
  | [] => []
  | r0 :: rest =>
      if r0.isEmpty then []
      else
        let headers := stdHeaders r0
        let dateIdx := findHdrIdx headers "date"
        let descIdx :=
          headers.findIdx? fun h =>
            strContains h "description" || strContains h "details" || strContains h "particulars"
        let amtIdx := headers.findIdx? fun h => strContains h "amount" || strContains h "debit"
        match dateIdx, descIdx, amtIdx with
        | some di, some de, some ai => rest.filterMap (stdRow di de ai)
        | _, _, _ => []

/-! ## Parser factory and the per-document pipeline -/

inductive ParserKind | hdfc | axis | standard
deriving DecidableEq, Repr

def parserName : ParserKind → String
  | .hdfc => "HDFC"
  | .axis => "Axis"
  | .standard => "Standard"

/-- `ParserFactory.parsers`, in declared priority order. -/
def parsersList : List ParserKind := [.hdfc, .axis, .standard]

/-- `parser.can_parse(table)`, exceptions made explicit. -/
def canParseE : ParserKind → Table → Except Unit Bool
  | .hdfc, t => .ok (hdfcCanParse t)
  | .axis, t => axisCanParseE t
  | .standard, t => .ok (standardCanParse t)

/-- `parser.extract_transactions(table)`. -/
def extractK : ParserKind → Table → List RawTxn
  | .hdfc, t => hdfcExtract t
  | .axis, t => axisExtract t
  | .standard, t => standardExtract t

/-- The bank-hint loop of `ParserFactory.get_parser`. -/
def bankLoop (table : Table) (bl : String) : List ParserKind → Except Unit (Option ParserKind)
  | [] => .ok none
  | p :: rest =>
      if pyLower (parserName p) = bl then
        match canParseE p table with
        | .error e => .error e
        | .ok true => .ok (some p)
        | .ok false => bankLoop table bl rest
      else bankLoop table bl rest

/-- The auto-detect loop of `ParserFactory.get_parser`: first parser whose
`can_parse` returns true. -/
def autoLoop (table : Table) : List ParserKind → Except Unit (Option ParserKind)
  | [] => .ok none
  | p :: rest =>
      match canParseE p table with
      | .error e => .error e
      | .ok true => .ok (some p)
      | .ok false => autoLoop table rest

/-- `ParserFactory.get_parser`: try the named parser when a truthy bank hint
is supplied, then auto-detect. -/
def getParserE (table : Table) (bank : Option String) : Except Unit (Option ParserKind) :=
  match bank with
  | some b =>
      if b ≠ "" then
        match bankLoop table (pyLower b) parsersList with
        | .error e => .error e
        | .ok (some p) => .ok (some p)
        | .ok none => autoLoop table parsersList
      else autoLoop table parsersList
  | none => autoLoop table parsersList

/-! ## Fallback line scanner -/

/-- Splitting a character list at every `'\n'` (each separator produces a
boundary; the result is never empty). -/
def splitNl : List Char → List (List Char)
  | [] => [[]]
  | c :: rest =>
      match splitNl rest with
      | [] => [[c]]
      | h :: t => if c = '\n' then [] :: h :: t else (c :: h) :: t

/-- Python `text.split('\n')`. -/
def splitLinesPy (s : String) : List String := (splitNl s.data).map fun l => ⟨l⟩

/-- Python `line.split()`: maximal non-whitespace runs do build the words. -/
def wordsGo (cur : List Char) : List Char → List (List Char)
  | [] => if cur.isEmpty then [] else [cur.reverse]
  | c :: rest =>
      if pyIsSpace c then
        if cur.isEmpty then wordsGo [] rest else cur.reverse :: wordsGo [] rest
      else wordsGo (c :: cur) rest

def splitWsPy (l : List Char) : List (List Char) := wordsGo [] l

/-- `\d{2}/\d{2}/\d{4}` matched at the head of the list. -/
def dateShapeAt (cs : List Char) : Bool :=
  (do
    let r ← eatDigits 2 cs
    let r ← eatChar '/' r
    let r ← eatDigits 2 r
    let r ← eatChar '/' r
    let r ← eatDigits 4 r
    pure r).isSome

/-- `date_pattern.search(line)`: index of the leftmost date-shaped
substring. -/
def findDateGo (i : Nat) : List Char → Option Nat
  | [] => none
  | c :: rest => if dateShapeAt (c :: rest) then some i else findDateGo (i + 1) rest

def findDatePos (cs : List Char) : Option Nat := findDateGo 0 cs

/-- `re.match(r'[\d,.-]+(Cr|Dr)?$', token)`: an optional trailing `Cr`/`Dr`
after a non-empty run of digits, commas, dots and minus signs, covering the
whole token. -/
def amountShape (tok : List Char) : Bool :=
  let body :=
    if endsWithL tok ['C', 'r'] || endsWithL tok ['D', 'r'] then tok.take (tok.length - 2)
    else tok
  !body.isEmpty && body.all isAmtChar

/-- `line.rfind(needle)`: index of the rightmost occurrence. -/
def rfindGo (needle : List Char) (i : Nat) (best : Option Nat) : List Char → Option Nat
  | [] => if needle.isEmpty then some i else best
  | c :: rest =>
      let best' := if needle.isPrefixOf (c :: rest) then some i else best
      rfindGo needle (i + 1) best' rest

def rfindL (hay needle : List Char) : Option Nat := rfindGo needle 0 none hay

/-- One line of the fallback scanner in `extract_transactions`: a line with
a date-shaped substring and more than three whitespace-separated tokens,
whose final token is amount-shaped with a non-zero parse, yields one
debit-only uncategorized record; the description is the stripped slice
between the end of the date and the last occurrence of the amount token. -/
def scanLine (lineS : String) : Option RawTxn :=
  let cs := lineS.data
  match findDatePos cs with
  | none => none
  | some i =>
      let parts := splitWsPy cs
      if 3 < parts.length then
        let dateStr : List Char := (cs.drop i).take 10
        let tok := parts.getLastD []
        if amountShape tok then
          let amt := parse_amountL tok
          if amt = 0 then none
          else
            let descStart := i + 10
            match rfindL cs tok with
            | none => none
            | some e =>
                if descStart < e then
                  match parse_date ⟨dateStr⟩ with
                  | none => none
                  | some dt =>
                      some { date := dt,
                             description :=
                               clean_description ⟨pyStripL ((cs.drop descStart).take (e - descStart))⟩,
                             amount := amt, currency := "INR",
                             is_credit := false, category := none }
                else none
        else none
      else none

/-- The fallback scanner over a page's plain text. -/
def scanText (text : String) : List RawTxn := (splitLinesPy text).filterMap scanLine

/-! ## The per-document loop of `extract_transactions` -/

/-- One page handed to the loop: its extracted tables and its plain-text
rendering (`none` models `extract_text()` returning `None`). -/
structure Page where
  tables : List Table
  text : Option String

/-- The transactions one table contributes: the selected parser's
extraction; an exception from `can_parse` during selection propagates
(it is NOT caught by the per-table `try/except`, which only guards
`extract_transactions`). -/
def tableTxnsE (bank : Option String) (t : Table) : Except Unit (List RawTxn) :=
  match getParserE t bank with
  | .error e => .error e
  | .ok none => .ok []
  | .ok (some p) => .ok (extractK p t)

/-- The inner `for table in tables` loop: extend the accumulator table by
table; the `Bool` reports an exception that aborts the whole document. -/
def foldTables (bank : Option String) : List Table → List RawTxn → List RawTxn × Bool
  | [], acc => (acc, false)
  | t :: rest, acc =>
      match tableTxnsE bank t with
      | .error _ => (acc, true)
      | .ok r => foldTables bank rest (acc ++ r)

/-- One page of the document loop: process its tables, then — only when the
cumulative transaction list is still empty — scan its truthy plain text.
Returns `(new accumulator, document aborted, this page's text was
scanned)`. -/
def processPage (bank : Option String) (p : Page) (acc : List RawTxn) :
    List RawTxn × Bool × Bool :=
  let (acc1, ab) := foldTables bank p.tables acc
  if ab then (acc1, true, false)
  else if acc1.isEmpty then
    match p.text with
    | none => (acc1, false, false)
    | some txt =>
        if txt = "" then (acc1, false, false)
        else (acc1 ++ scanText txt, false, true)
  else (acc1, false, false)

/-- The `for page in pdf.pages` loop, also reporting the indices of the
pages whose plain text the fallback scanner visited. -/
def processGo (bank : Option String) : List Page → List RawTxn → Nat → List RawTxn × List Nat
  | [], acc, _ => (acc, [])
  | p :: rest, acc, i =>
      match processPage bank p acc with
      | (acc1, true, _) => (acc1, [])
      | (acc1, false, sc) =>
          let r := processGo bank rest acc1 (i + 1)
          (r.1, (if sc then [i] else []) ++ r.2)

/-- `parser.extract_transactions(file_path, password, bank)` on an opened
document: the extracted records and the indices of fallback-scanned
pages. -/
def extract_transactions (pages : List Page) (bank : Option String) :
    List RawTxn × List Nat :=
  processGo bank pages [] 0

/-! ## Claim C10: the hard-coded currency -/

lemma hdfcRow_currency (s : String) (r : RawTxn) (h : hdfcRow s = some r) :
    r.currency = "INR" := by
  unfold hdfcRow at h
  dsimp only at h
  repeat' split at h
  all_goals first
    | exact Option.noConfusion h
    | (injection h with h2; subst h2; rfl)

lemma axisRow_currency (di de : Nat) (ci : Option Nat) (ai : Nat) (row : TRow) (r : RawTxn)
    (h : axisRow di de ci ai row = some r) : r.currency = "INR" := by
  unfold axisRow at h
  dsimp only at h
  repeat' split at h
  all_goals first
    | exact Option.noConfusion h
    | (injection h with h2; subst h2; rfl)

lemma stdRow_currency (di de ai : Nat) (row : TRow) (r : RawTxn)
    (h : stdRow di de ai row = some r) : r.currency = "INR" := by
  unfold stdRow at h
  try dsimp only at h
  repeat' split at h
  all_goals first
    | exact Option.noConfusion h
    | (injection h with h2; subst h2; rfl)

lemma scanLine_currency (s : String) (r : RawTxn) (h : scanLine s = some r) :
    r.currency = "INR" := by
  unfold scanLine at h
  dsimp only at h
  repeat' split at h
  all_goals first
    | exact Option.noConfusion h
    | (injection h with h2; subst h2; rfl)

lemma hdfcExtract_currency (t : Table) (r : RawTxn) (h : r ∈ hdfcExtract t) :
    r.currency = "INR" := by
  unfold hdfcExtract at h
  split at h
  · simp at h
  · split at h
    · rw [List.mem_flatMap] at h
      obtain ⟨row, -, hmem⟩ := h
      revert hmem
      split
      · intro hmem
        rw [Option.mem_toList, Option.mem_def] at hmem
        exact hdfcRow_currency _ _ hmem
      · intro hmem
        simp at hmem
    · simp at h

lemma axisExtract_currency (t : Table) (r : RawTxn) (h : r ∈ axisExtract t) :
    r.currency = "INR" := by
  unfold axisExtract at h
  try dsimp only at h
  repeat' split at h
  any_goals
    rw [List.mem_filterMap] at h
    obtain ⟨row, -, hrow⟩ := h
    exact axisRow_currency _ _ _ _ _ _ hrow
  all_goals simp at h

lemma standardExtract_currency (t : Table) (r : RawTxn) (h : r ∈ standardExtract t) :
    r.currency = "INR" := by
  unfold standardExtract at h
  try dsimp only at h
  repeat' split at h
  any_goals
    rw [List.mem_filterMap] at h
    obtain ⟨row, -, hrow⟩ := h
    exact stdRow_currency _ _ _ _ _ hrow
  all_goals simp at h

/-- Claim C10: every record emitted by any extraction path — the
single-column strategy, the header-column strategy, the generic header
strategy, and the fallback line scanner — has currency exactly `"INR"`;
no path reads a currency from the statement content. -/
theorem C10_currency_inr :
    (∀ t r, r ∈ hdfcExtract t → r.currency = "INR") ∧
    (∀ t r, r ∈ axisExtract t → r.currency = "INR") ∧
    (∀ t r, r ∈ standardExtract t → r.currency = "INR") ∧
    (∀ s r, r ∈ scanText s → r.currency = "INR") := by
  refine ⟨hdfcExtract_currency, axisExtract_currency, standardExtract_currency, ?_⟩
  intro s r h
  unfold scanText at h
  rw [List.mem_filterMap] at h
  obtain ⟨line, -, hline⟩ := h
  exact scanLine_currency _ _ hline

def tableC10 : Table :=
  [[some "date", some "description", some "amount"],
   [some "01/01/2024", some "FOO", some "5"]]

def recC10 : RawTxn :=
  { date := ⟨2024, 1, 1⟩, description := clean_description "FOO",
    amount := parse_amount (pyStrip "5"), currency := "INR",
    is_credit := false, category := none }

/-- Witness for C10: a concrete generic-header table produces a record, and
its currency is `"INR"`. -/
theorem C10_currency_inr_witness : recC10.currency = "INR" :=
  C10_currency_inr.2.2.1 tableC10 recC10
    (by rw [show standardExtract tableC10 = [recC10] from rfl]
        exact List.mem_singleton_self _)

/-! ## Claim C6: the single-column strategy's `can_parse` -/

def tableC6 : Table := [[some "01/01/2024| 10:15 x"], [some "a", some "b"]]

/-- Counterexample to claim C6: `HDFCParser.can_parse` accepts a table one
of whose rows has two cells — the cell-count test looks only at the first
row, so "every row of the table has exactly one cell" is not required. -/
theorem C6_counterexample :
    hdfcCanParse tableC6 = true ∧ ∃ row ∈ tableC6, 1 < row.length := by decide

lemma hdfcRowPat_eq (row : TRow) :
    (match row with
      | some s :: _ => searchB hdfcDTAt s.data
      | _ => false) =
    (match row.head? with
      | some (some s) => searchB hdfcDTAt s.data
      | _ => false) := by
  match row with
  | [] => rfl
  | none :: _ => rfl
  | some _ :: _ => rfl

/-- Claim C6 as amended: `HDFCParser.can_parse` returns true exactly when
the table is non-empty, its FIRST row has exactly one cell (rows after the
first are not inspected for cell count), and one of the first five rows has
a string first cell in which the `DD/MM/YYYY | HH:MM` pattern occurs
somewhere (a search, not an anchored prefix test). -/
theorem C6_amended (t : Table) :
    hdfcCanParse t = true ↔
      t ≠ [] ∧ (t.headD []).length = 1 ∧
      ∃ row ∈ t.take 5, ∃ s, row.head? = some (some s) ∧ searchB hdfcDTAt s.data = true := by
  cases t with
  | nil => simp [hdfcCanParse]
  | cons r0 rest =>
      by_cases hl : r0.length = 1
      · constructor
        · intro h
          have h' : ((r0 :: rest).take 5).any (fun row => match row with
              | some s :: _ => searchB hdfcDTAt s.data
              | _ => false) = true := by
            simpa [hdfcCanParse, hl] using h
          rw [List.any_eq_true] at h'
          obtain ⟨row, hmem, hf⟩ := h'
          refine ⟨by simp, by simp [hl], ?_⟩
          cases hh : row.head? with
          | none =>
              simp only [hdfcRowPat_eq, hh] at hf
              simp at hf
          | some c =>
              cases c with
              | none =>
                  simp only [hdfcRowPat_eq, hh] at hf
                  simp at hf
              | some s =>
                  simp only [hdfcRowPat_eq, hh] at hf
                  exact ⟨row, hmem, s, hh, by simpa using hf⟩
        · rintro ⟨-, -, row, hmem, s, hh, hs⟩
          have h' : ((r0 :: rest).take 5).any (fun row => match row with
              | some s :: _ => searchB hdfcDTAt s.data
              | _ => false) = true := by
            rw [List.any_eq_true]
            refine ⟨row, hmem, ?_⟩
            simp only [hdfcRowPat_eq, hh]
            simpa using hs
          simpa [hdfcCanParse, hl] using h'
      · simp [hdfcCanParse, hl]

/-! ## Claim C3: non-negativity of extracted amounts -/

lemma ratOfParts_false_nonneg (p : Nat × Nat × Nat) : 0 ≤ ratOfParts (false, p) := by
  unfold ratOfParts
  simp only [Bool.false_eq_true, if_false]
  positivity

lemma pyFloatR?_true_minus (cs : List Char) (p : Nat × Nat × Nat)
    (h : pyFloatR? cs = some (true, p)) : ('-' : Char) ∈ cs := by
  unfold pyFloatR? at h
  split at h
  · exact List.mem_cons_self _ _
  · rcases Option.map_eq_some'.mp h with ⟨q, -, hq⟩
    simp at hq

lemma parse_amountL_nonneg (l : List Char) (h : ('-' : Char) ∉ l) : 0 ≤ parse_amountL l := by
  unfold parse_amountL
  cases hq : pyFloatR? (l.filter isAmtChar) with
  | none => exact le_refl 0
  | some bp =>
      obtain ⟨b, p⟩ := bp
      cases b with
      | true =>
          have : ('-' : Char) ∈ l.filter isAmtChar := pyFloatR?_true_minus _ _ hq
          exact absurd (List.mem_of_mem_filter this) h
      | false => exact ratOfParts_false_nonneg p

lemma mem_of_mem_dropWhile {p : Char → Bool} {c : Char} :
    ∀ {l : List Char}, c ∈ l.dropWhile p → c ∈ l := by
  intro l h
  induction l with
  | nil => simp at h
  | cons a t ih =>
      rw [List.dropWhile_cons] at h
      split at h
      · exact List.mem_cons_of_mem _ (ih h)
      · exact h

lemma mem_pyStripL {c : Char} {l : List Char} (h : c ∈ pyStripL l) : c ∈ l := by
  unfold pyStripL at h
  rw [List.mem_reverse] at h
  have h1 := mem_of_mem_dropWhile h
  rw [List.mem_reverse] at h1
  exact mem_of_mem_dropWhile h1

lemma mem_of_mem_take {c : Char} {l : List Char} {n : Nat} (h : c ∈ l.take n) : c ∈ l :=
  List.IsPrefix.mem h (List.take_prefix n l)

lemma mem_detectCreditR {c : Char} (s : String) (h : c ∈ (detectCreditR s).1) : c ∈ s.data := by
  unfold detectCreditR at h
  dsimp only at h
  repeat' split at h
  case h_1 =>
    rename_i t heq
    have hc : c ∈ '+' :: t := List.mem_cons_of_mem _ (mem_pyStripL h)
    rw [← heq] at hc
    split at hc
    · dsimp only at hc
      exact mem_pyStripL (mem_of_mem_take (mem_pyStripL hc))
    · split at hc
      · dsimp only at hc
        exact mem_pyStripL (mem_of_mem_take (mem_pyStripL hc))
      · dsimp only at hc
        exact mem_pyStripL hc
  case h_2.isTrue => exact mem_pyStripL (mem_of_mem_take (mem_pyStripL h))
  case h_2.isFalse.isTrue => exact mem_pyStripL (mem_of_mem_take (mem_pyStripL h))
  case h_2.isFalse.isFalse => exact mem_pyStripL h

lemma getD_mem_of_eq_some (row : TRow) (i : Nat) (s : String)
    (h : row.getD i none = some s) : some s ∈ row := by
  induction row generalizing i with
  | nil => simp [List.getD] at h
  | cons a t ih =>
      cases i with
      | zero =>
          rw [List.getD_cons_zero] at h
          rw [h] at *
          exact List.mem_cons_self _ _
      | succ n =>
          rw [List.getD_cons_succ] at h
          exact List.mem_cons_of_mem _ (ih n h)

lemma detect_nonneg_of_no_minus (a : String) (hminus : ('-' : Char) ∉ a.data) :
    0 ≤ (detect_credit_transaction (pyStrip a)).1 := by
  show 0 ≤ parse_amountL (detectCreditR (pyStrip a)).1
  apply parse_amountL_nonneg
  intro hc
  exact hminus (mem_pyStripL (mem_detectCreditR (pyStrip a) hc))

lemma axis_amt_nonneg (row : TRow) (ai : Nat)
    (hcells : ∀ cell ∈ row, ∀ s, cell = some s → ('-' : Char) ∉ s.data) {a : String}
    (heq : (if ai < row.length then row.getD ai none else none) = some a) :
    0 ≤ (detect_credit_transaction (pyStrip a)).1 := by
  split at heq
  · exact detect_nonneg_of_no_minus a (hcells _ (getD_mem_of_eq_some row ai a heq) a rfl)
  · exact Option.noConfusion heq

lemma std_amt_nonneg (row : TRow) (ai : Nat)
    (hcells : ∀ cell ∈ row, ∀ s, cell = some s → ('-' : Char) ∉ s.data) {a : String}
    (heq : row.getD ai none = some a) : 0 ≤ parse_amount (pyStrip a) := by
  have hminus : ('-' : Char) ∉ a.data :=
    hcells _ (getD_mem_of_eq_some row ai a heq) a rfl
  show 0 ≤ parse_amountL (pyStrip a).data
  apply parse_amountL_nonneg
  intro hc
  exact hminus (mem_pyStripL hc)

lemma checkU_no_minus (u a : List Char) (h : checkU u = some a) : ('-' : Char) ∉ a := by
  unfold checkU at h
  dsimp only at h
  repeat' split at h
  all_goals try exact Option.noConfusion h
  all_goals
    injection h with h2
    subst h2
    intro hc
    simp at hc
    rcases hc with h1 | h1 | h1
    · have := List.mem_takeWhile_imp h1
      simp at this
    · subst h1
      simp_all
    · subst h1
      simp_all

lemma goDesc_amt (u : List Char) : ∀ dacc d a, goDesc dacc u = some (d, a) →
    ∃ u', checkU u' = some a := by
  induction u with
  | nil =>
      intro dacc d a h
      unfold goDesc at h
      split at h
      · rename_i amt heq
        injection h with h2
        injection h2 with hd ha
        subst ha
        exact ⟨[], heq⟩
      · exact Option.noConfusion h
  | cons c u' ih =>
      intro dacc d a h
      unfold goDesc at h
      split at h
      · rename_i amt heq
        injection h with h2
        injection h2 with hd ha
        subst ha
        exact ⟨c :: u', heq⟩
      · exact ih (dacc ++ [c]) d a h

lemma tryW_amt (t : List Char) : ∀ n d a, tryW t n = some (d, a) →
    ∃ u', checkU u' = some a := by
  intro n
  induction n with
  | zero => intro d a h; exact Option.noConfusion h
  | succ w ih =>
      intro d a h
      unfold tryW at h
      split at h
      · rename_i r heq
        injection h with h2
        subst h2
        exact goDesc_amt _ _ _ _ heq
      · exact ih d a h

lemma hdfcMatchAt_amt (cs dt de am : List Char)
    (h : hdfcMatchAt cs = some (dt, de, am)) : ∃ u', checkU u' = some am := by
  unfold hdfcMatchAt at h
  simp only [bind, Option.bind_eq_some, pure, Option.some.injEq] at h
  obtain ⟨r1, h1, r2, h2, r3, h3, r4, h4, r5, h5, r6, h6, r7, h7, r8, h8, r9, h9, rt, ht, hfin⟩ := h
  injection hfin with h10 hrest
  injection hrest with hde ham
  subst ham
  unfold matchTail at ht
  exact tryW_amt _ _ _ _ ht

lemma hdfcSearchM_amt : ∀ (cs dt de am : List Char),
    hdfcSearchM cs = some (dt, de, am) → ∃ u', checkU u' = some am := by
  intro cs
  induction cs with
  | nil => intro dt de am h; exact Option.noConfusion h
  | cons c rest ih =>
      intro dt de am h
      unfold hdfcSearchM at h
      split at h
      · rename_i r heq
        injection h with h2
        subst h2
        exact hdfcMatchAt_amt _ _ _ _ heq
      · exact ih dt de am h

lemma hdfcRow_amount_nonneg (s : String) (r : RawTxn) (h : hdfcRow s = some r) :
    0 ≤ r.amount := by
  unfold hdfcRow at h
  dsimp only at h
  split at h
  · exact Option.noConfusion h
  · rename_i heq
    obtain ⟨u', hu⟩ := hdfcSearchM_amt _ _ _ _ heq
    have hnm := checkU_no_minus _ _ hu
    repeat' split at h
    all_goals first
      | exact Option.noConfusion h
      | (injection h with h2; subst h2; exact parse_amountL_nonneg _ hnm)

lemma axisRow_amount_nonneg (di de : Nat) (ci : Option Nat) (ai : Nat) (row : TRow)
    (r : RawTxn)
    (hcells : ∀ cell ∈ row, ∀ s, cell = some s → ('-' : Char) ∉ s.data)
    (h : axisRow di de ci ai row = some r) : 0 ≤ r.amount := by
  unfold axisRow at h
  dsimp only at h
  repeat' split at h
  all_goals try exact Option.noConfusion h
  all_goals (injection h with h2; subst h2)
  all_goals exact axis_amt_nonneg row ai hcells (by assumption)

lemma stdRow_amount_nonneg (di de ai : Nat) (row : TRow) (r : RawTxn)
    (hcells : ∀ cell ∈ row, ∀ s, cell = some s → ('-' : Char) ∉ s.data)
    (h : stdRow di de ai row = some r) : 0 ≤ r.amount := by
  unfold stdRow at h
  try dsimp only at h
  repeat' split at h
  all_goals try exact Option.noConfusion h
  all_goals (injection h with h2; subst h2)
  all_goals exact std_amt_nonneg row ai hcells (by assumption)

lemma getLastD_mem_or_nil (l : List (List Char)) (d : List Char) :
    l.getLastD d ∈ l ∨ l = [] := by
  induction l generalizing d with
  | nil => exact Or.inr rfl
  | cons a t ih =>
      rw [List.getLastD_cons]
      rcases ih a with h | h
      · exact Or.inl (List.mem_cons_of_mem _ h)
      · subst h
        exact Or.inl (List.mem_singleton_self _)

lemma mem_wordsGo : ∀ (l cur w : List Char), w ∈ wordsGo cur l → ∀ c ∈ w, c ∈ cur ∨ c ∈ l := by
  intro l
  induction l with
  | nil =>
      intro cur w hw c hc
      unfold wordsGo at hw
      split at hw
      · simp at hw
      · rw [List.mem_singleton] at hw
        subst hw
        exact Or.inl (List.mem_reverse.mp hc)
  | cons a t ih =>
      intro cur w hw c hc
      unfold wordsGo at hw
      split at hw
      · split at hw
        · rcases ih [] w hw c hc with h | h
          · simp at h
          · exact Or.inr (List.mem_cons_of_mem _ h)
        · rcases List.mem_cons.mp hw with rfl | hw'
          · exact Or.inl (List.mem_reverse.mp hc)
          · rcases ih [] w hw' c hc with h | h
            · simp at h
            · exact Or.inr (List.mem_cons_of_mem _ h)
      · rcases ih (a :: cur) w hw c hc with h | h
        · rcases List.mem_cons.mp h with rfl | h'
          · exact Or.inr (List.mem_cons_self _ _)
          · exact Or.inl h'
        · exact Or.inr (List.mem_cons_of_mem _ h)

lemma scan_amt_nonneg (cs : List Char) (hminus : ('-' : Char) ∉ cs) :
    0 ≤ parse_amountL ((splitWsPy cs).getLastD []) := by
  rcases getLastD_mem_or_nil (splitWsPy cs) [] with hmem | hnil
  · apply parse_amountL_nonneg
    intro hc
    rcases mem_wordsGo cs [] _ hmem _ hc with h | h
    · simp at h
    · exact hminus h
  · rw [hnil]
    exact le_refl 0

lemma scanLine_amount_nonneg (lineS : String) (r : RawTxn)
    (hminus : ('-' : Char) ∉ lineS.data) (h : scanLine lineS = some r) : 0 ≤ r.amount := by
  unfold scanLine at h
  dsimp only at h
  repeat' split at h
  all_goals try exact Option.noConfusion h
  all_goals (injection h with h2; subst h2)
  all_goals exact scan_amt_nonneg lineS.data hminus

lemma hdfcExtract_amount_nonneg (t : Table) (r : RawTxn) (h : r ∈ hdfcExtract t) :
    0 ≤ r.amount := by
  unfold hdfcExtract at h
  split at h
  · simp at h
  · split at h
    · rw [List.mem_flatMap] at h
      obtain ⟨row, -, hmem⟩ := h
      revert hmem
      split
      · intro hmem
        rw [Option.mem_toList, Option.mem_def] at hmem
        exact hdfcRow_amount_nonneg _ _ hmem
      · intro hmem
        simp at hmem
    · simp at h

lemma axisExtract_amount_nonneg (t : Table) (r : RawTxn)
    (hcells : ∀ row ∈ t, ∀ cell ∈ row, ∀ s, cell = some s → ('-' : Char) ∉ s.data)
    (h : r ∈ axisExtract t) : 0 ≤ r.amount := by
  unfold axisExtract at h
  try dsimp only at h
  repeat' split at h
  any_goals
    rw [List.mem_filterMap] at h
    obtain ⟨row, hrowmem, hrow⟩ := h
  any_goals simp at h
  all_goals
    exact axisRow_amount_nonneg _ _ _ _ row r
      (hcells row (List.mem_cons_of_mem _ hrowmem)) hrow

lemma standardExtract_amount_nonneg (t : Table) (r : RawTxn)
    (hcells : ∀ row ∈ t, ∀ cell ∈ row, ∀ s, cell = some s → ('-' : Char) ∉ s.data)
    (h : r ∈ standardExtract t) : 0 ≤ r.amount := by
  unfold standardExtract at h
  try dsimp only at h
  repeat' split at h
  any_goals
    rw [List.mem_filterMap] at h
    obtain ⟨row, hrowmem, hrow⟩ := h
  any_goals simp at h
  all_goals
    exact stdRow_amount_nonneg _ _ _ row r
      (hcells row (List.mem_cons_of_mem _ hrowmem)) hrow

def rowC3 : TRow := [some "01/01/2024", some "FOO", some "-500.00"]

def tableC3 : Table :=
  [[some "DATE", some "TRANSACTION DETAILS", some "AMOUNT (Rs.)"], rowC3]

def recC3 : RawTxn :=
  { date := ⟨2024, 1, 1⟩, description := clean_description "FOO", amount := -500,
    currency := "INR", is_credit := false, category := none }

/-- Counterexample to claim C3: a header-column (Axis) table whose amount
cell is `"-500.00"` produces a record with NEGATIVE amount `-500` —
`parse_amount` keeps the `-` sign and the zero-skip does not catch it, so
`amount ≥ 0` is not an invariant of the extraction paths. -/
theorem C3_counterexample : ∃ r ∈ axisExtract tableC3, r.amount < 0 := by
  have h1 : detectCreditR (pyStrip "-500.00") = ("-500.00".data, false) := by decide
  have h2 : pyFloatR? ("-500.00".data.filter isAmtChar) = some (true, 500, 0, 2) := by decide
  have hd : detect_credit_transaction (pyStrip "-500.00") = (-500, false) := by
    show (parse_amountL (detectCreditR (pyStrip "-500.00")).1,
          (detectCreditR (pyStrip "-500.00")).2) = _
    rw [h1]
    show (parse_amountL "-500.00".data, false) = _
    rw [show parse_amountL "-500.00".data = ratOfParts (true, 500, 0, 2) from by
      unfold parse_amountL; rw [h2]]
    norm_num [ratOfParts]
  have hrow : axisRow 0 1 none 2 rowC3 = some recC3 := by
    rw [show axisRow 0 1 none 2 rowC3 =
        (if (detect_credit_transaction (pyStrip "-500.00")).1 = 0 then none
         else some { date := ⟨2024, 1, 1⟩, description := clean_description "FOO",
                     amount := (detect_credit_transaction (pyStrip "-500.00")).1,
                     currency := "INR",
                     is_credit := (detect_credit_transaction (pyStrip "-500.00")).2,
                     category := none }) from rfl]
    rw [hd]
    norm_num [recC3]
  have hext : axisExtract tableC3 = [recC3] := by
    rw [show axisExtract tableC3 = [rowC3].filterMap (axisRow 0 1 none 2) from rfl]
    simp [List.filterMap_cons, hrow]
  refine ⟨recC3, ?_, ?_⟩
  · rw [hext]
    exact List.mem_singleton_self _
  · show (-500 : ℚ) < 0
    norm_num

/-- Claim C3 as amended: the single-column (HDFC) strategy's amounts are
always non-negative (its regex captures only digits, commas and a dot); the
header-column, generic-header and fallback paths guarantee `amount ≥ 0`
only when the input contains no `'-'` character — an amount text with a
leading `-` yields a negative record (see the counterexample). -/
theorem C3_amended :
    (∀ t r, r ∈ hdfcExtract t → 0 ≤ r.amount) ∧
    (∀ t r, (∀ row ∈ t, ∀ cell ∈ row, ∀ s, cell = some s → ('-' : Char) ∉ s.data) →
      r ∈ axisExtract t → 0 ≤ r.amount) ∧
    (∀ t r, (∀ row ∈ t, ∀ cell ∈ row, ∀ s, cell = some s → ('-' : Char) ∉ s.data) →
      r ∈ standardExtract t → 0 ≤ r.amount) ∧
    (∀ lineS r, ('-' : Char) ∉ lineS.data → scanLine lineS = some r → 0 ≤ r.amount) :=
  ⟨hdfcExtract_amount_nonneg,
   fun t r hc hm => axisExtract_amount_nonneg t r hc hm,
   fun t r hc hm => standardExtract_amount_nonneg t r hc hm,
   fun l r hm h => scanLine_amount_nonneg l r hm h⟩

def tableC3w : Table := [[some "01/02/2024 | 10:15 AMAZON PAY 1,234.56 X"]]

def recC3w : RawTxn :=
  { date := ⟨2024, 2, 1⟩, description := "AMAZON PAY",
    amount := parse_amountL "1,234.56".data, currency := "INR",
    is_credit := false, category := none }

/-- Witness for C3's amended theorem: the record extracted from a concrete
single-column row has non-negative amount. -/
theorem C3_amended_witness : 0 ≤ recC3w.amount :=
  C3_amended.1 tableC3w recC3w
    (by rw [show hdfcExtract tableC3w = [recC3w] from rfl]
        exact List.mem_singleton_self _)

/-! ## Claim C8: `clean_description` is idempotent and non-increasing -/

lemma length_dropWhile_le (p : Char → Bool) (l : List Char) :
    (l.dropWhile p).length ≤ l.length := by
  induction l with
  | nil => simp
  | cons c rest ih =>
      rw [List.dropWhile_cons]
      split
      · exact le_trans ih (Nat.le_succ _)
      · exact le_refl _

lemma length_collapseGo_le (l : List Char) : ∀ b, (collapseGo b l).length ≤ l.length := by
  induction l with
  | nil => intro b; simp [collapseGo]
  | cons c rest ih =>
      intro b
      unfold collapseGo
      split
      · split
        · exact le_trans (ih true) (Nat.le_succ _)
        · simpa using ih true
      · simpa using ih false

lemma length_pyStripL_le (l : List Char) : (pyStripL l).length ≤ l.length := by
  unfold pyStripL
  rw [List.length_reverse]
  calc ((l.dropWhile pyIsSpace).reverse.dropWhile pyIsSpace).length
      ≤ (l.dropWhile pyIsSpace).reverse.length := length_dropWhile_le _ _
    _ = (l.dropWhile pyIsSpace).length := List.length_reverse _
    _ ≤ l.length := length_dropWhile_le _ _

lemma cleanList_length_le (l : List Char) : (cleanList l).length ≤ l.length := by
  unfold cleanList collapseWs
  calc (pyStripL (collapseGo false (replNl l))).length
      ≤ (collapseGo false (replNl l)).length := length_pyStripL_le _
    _ ≤ (replNl l).length := length_collapseGo_le _ false
    _ = l.length := List.length_map _ _

/-- The adjacency relation of the collapsed form: two neighbours are never
both whitespace. -/
def wsOk (a b : Char) : Prop := pyIsSpace a = false ∨ pyIsSpace b = false

/-- The head, when present, is not whitespace. -/
def headNotWs (m : List Char) : Prop := ∀ c, m.head? = some c → pyIsSpace c = false

lemma mem_collapseGo (l : List Char) :
    ∀ b c, c ∈ collapseGo b l → c = ' ' ∨ pyIsSpace c = false := by
  induction l with
  | nil => intro b c h; simp [collapseGo] at h
  | cons a rest ih =>
      intro b c h
      unfold collapseGo at h
      split at h
      · split at h
        · exact ih true c h
        · rcases List.mem_cons.mp h with rfl | h'
          · exact Or.inl rfl
          · exact ih true c h'
      · rcases List.mem_cons.mp h with rfl | h'
        · rename_i ha
          exact Or.inr (by simpa using ha)
        · exact ih false c h'

lemma headNotWs_collapseGo_true (l : List Char) : headNotWs (collapseGo true l) := by
  induction l with
  | nil => intro c h; simp [collapseGo] at h
  | cons a rest ih =>
      intro c h
      unfold collapseGo at h
      split at h
      · exact ih c h
      · rename_i ha
        rw [List.head?_cons] at h
        injection h with h
        subst h
        simpa using ha

lemma chain'_collapseGo (l : List Char) : ∀ b, List.Chain' wsOk (collapseGo b l) := by
  induction l with
  | nil => intro b; simp [collapseGo]
  | cons a rest ih =>
      intro b
      unfold collapseGo
      split
      · split
        · exact ih true
        · rw [List.chain'_cons']
          refine ⟨?_, ih true⟩
          intro h hh
          exact Or.inr (headNotWs_collapseGo_true rest h hh)
      · rw [List.chain'_cons']
        refine ⟨?_, ih false⟩
        intro h hh
        rename_i ha
        exact Or.inl (by simpa using ha)

lemma dropWhile_suffix (p : Char → Bool) (l : List Char) : l.dropWhile p <:+ l :=
  ⟨l.takeWhile p, List.takeWhile_append_dropWhile p l⟩

lemma head?_dropWhile (p : Char → Bool) (l : List Char) :
    ∀ c, (l.dropWhile p).head? = some c → p c = false := by
  induction l with
  | nil => intro c h; simp at h
  | cons a rest ih =>
      intro c h
      rw [List.dropWhile_cons] at h
      split at h
      · exact ih c h
      · rw [List.head?_cons] at h
        injection h with h
        subst h
        rename_i ha
        simpa using ha

lemma headNotWs_of_prefix {l m : List Char} (h : l <+: m) (hm : headNotWs m) :
    headNotWs l := by
  intro c hc
  obtain ⟨t, ht⟩ := h
  apply hm c
  rw [← ht]
  cases l with
  | nil => simp at hc
  | cons a r =>
      rw [List.head?_cons] at hc
      injection hc with hc
      subst hc
      rfl

lemma pyStripL_pfx (l : List Char) : pyStripL l <+: l.dropWhile pyIsSpace := by
  unfold pyStripL
  refine ⟨((l.dropWhile pyIsSpace).reverse.takeWhile pyIsSpace).reverse, ?_⟩
  rw [← List.reverse_append, List.takeWhile_append_dropWhile, List.reverse_reverse]

lemma headNotWs_pyStripL (l : List Char) : headNotWs (pyStripL l) := by
  have h1 : headNotWs (l.dropWhile pyIsSpace) := fun c hc => head?_dropWhile _ _ c hc
  exact headNotWs_of_prefix (pyStripL_pfx l) h1

lemma headNotWs_pyStripL_reverse (l : List Char) : headNotWs (pyStripL l).reverse := by
  unfold pyStripL
  rw [List.reverse_reverse]
  exact fun c hc => head?_dropWhile _ _ c hc

lemma chain'_pyStripL {l : List Char} (h : List.Chain' wsOk l) :
    List.Chain' wsOk (pyStripL l) := by
  have h1 : List.Chain' wsOk (l.dropWhile pyIsSpace) :=
    h.suffix (dropWhile_suffix _ _)
  have h2 : List.Chain' wsOk (l.dropWhile pyIsSpace).reverse := by
    rw [List.chain'_reverse]
    exact h1.imp fun a b hab => hab.symm
  have h3 : List.Chain' wsOk ((l.dropWhile pyIsSpace).reverse.dropWhile pyIsSpace) :=
    h2.suffix (dropWhile_suffix _ _)
  unfold pyStripL
  rw [List.chain'_reverse]
  exact h3.imp fun a b hab => hab.symm

lemma replNl_eq_self {m : List Char} (h : ∀ c ∈ m, c ≠ '\n') : replNl m = m := by
  unfold replNl
  rw [show List.map (fun c => if c == '\n' then ' ' else c) m = List.map id m from
    List.map_congr_left (fun a ha => by simp [h a ha]), List.map_id]

lemma collapseGo_eq_self {m : List Char} (h1 : ∀ c ∈ m, pyIsSpace c = true → c = ' ')
    (h2 : List.Chain' wsOk m) :
    ∀ b, (b = true → headNotWs m) → collapseGo b m = m := by
  induction m with
  | nil => intro b _; rfl
  | cons c rest ih =>
      intro b hb
      have hrest1 : ∀ x ∈ rest, pyIsSpace x = true → x = ' ' :=
        fun x hx => h1 x (List.mem_cons_of_mem _ hx)
      have hrest2 : List.Chain' wsOk rest := (List.chain'_cons'.mp h2).2
      by_cases hc : pyIsSpace c = true
      · have hb' : b = false := by
          cases b with
          | true => exact absurd (hb rfl c rfl) (by simp [hc])
          | false => rfl
        subst hb'
        have hcsp : c = ' ' := h1 c (List.mem_cons_self _ _) hc
        have hhead : headNotWs rest := by
          intro x hx
          rcases (List.chain'_cons'.mp h2).1 x hx with hw | hw
          · exact absurd hc (by simp [hw])
          · exact hw
        unfold collapseGo
        rw [if_pos (by simpa using hc), if_neg (by simp)]
        rw [ih hrest1 hrest2 true (fun _ => hhead), hcsp]
      · unfold collapseGo
        rw [if_neg (by simpa using hc)]
        rw [ih hrest1 hrest2 false (by simp)]

lemma dropWhile_eq_self_of_head {m : List Char} (h : headNotWs m) :
    m.dropWhile pyIsSpace = m := by
  cases m with
  | nil => rfl
  | cons c rest =>
      rw [List.dropWhile_cons, if_neg]
      simp [h c rfl]

lemma pyStripL_eq_self {m : List Char} (h1 : headNotWs m) (h2 : headNotWs m.reverse) :
    pyStripL m = m := by
  unfold pyStripL
  rw [dropWhile_eq_self_of_head h1, dropWhile_eq_self_of_head h2, List.reverse_reverse]

lemma cleanList_idem (l : List Char) : cleanList (cleanList l) = cleanList l := by
  set m := cleanList l with hm
  have hmem : ∀ c ∈ m, c = ' ' ∨ pyIsSpace c = false := by
    intro c hc
    exact mem_collapseGo (replNl l) false c (mem_pyStripL hc)
  have hP1 : ∀ c ∈ m, pyIsSpace c = true → c = ' ' := by
    intro c hc hws
    rcases hmem c hc with h | h
    · exact h
    · exact absurd hws (by simp [h])
  have hChain : List.Chain' wsOk m := chain'_pyStripL (chain'_collapseGo (replNl l) false)
  have hHead : headNotWs m := headNotWs_pyStripL _
  have hLast : headNotWs m.reverse := headNotWs_pyStripL_reverse _
  have hNl : ∀ c ∈ m, c ≠ '\n' := by
    intro c hc hne
    subst hne
    have := hP1 '\n' hc (by decide)
    exact absurd this (by decide)
  show pyStripL (collapseWs (replNl m)) = m
  rw [replNl_eq_self hNl]
  show pyStripL (collapseGo false m) = m
  rw [collapseGo_eq_self hP1 hChain false (by simp)]
  exact pyStripL_eq_self hHead hLast

/-- Claim C8: `clean_description` is idempotent, and never increases the
length of its input. -/
theorem C8_clean_description (s : String) :
    clean_description (clean_description s) = clean_description s ∧
    (clean_description s).length ≤ s.length := by
  constructor
  · by_cases hs : s = ""
    · rw [hs]
      rfl
    · by_cases h2 : clean_description s = ""
      · rw [clean_description, if_pos h2]
        exact h2.symm
      · rw [clean_description, if_neg h2]
        rw [show clean_description s = (⟨cleanList s.data⟩ : String) from by
          rw [clean_description, if_neg hs]]
        show (⟨cleanList (cleanList s.data)⟩ : String) = (⟨cleanList s.data⟩ : String)
        rw [cleanList_idem s.data]
  · by_cases hs : s = ""
    · rw [hs]
      exact le_refl _
    · rw [clean_description, if_neg hs]
      show (cleanList s.data).length ≤ s.data.length
      exact cleanList_length_le s.data

/-! ## Claim C4: when the fallback scanner runs -/

def pagesC4 : List Page :=
  [⟨[], some "hello world"⟩, ⟨[tableC3w], none⟩]

/-- Counterexample to claim C4: page 1's table yields a transaction, yet
page 0's plain text was still scanned by the fallback heuristic — the
`if not transactions` check runs per page in document order, so a LATER
page's table result cannot suppress the fallback scan of an EARLIER page. -/
theorem C4_counterexample :
    (extract_transactions pagesC4 none).2 = [0] ∧
    0 < (extractK .hdfc tableC3w).length ∧
    tableC3w ∈ (pagesC4.getD 1 ⟨[], none⟩).tables := by
  refine ⟨rfl, ?_, by simp [pagesC4, tableC3w]⟩
  rw [show extractK .hdfc tableC3w = [recC3w] from rfl]
  simp

lemma foldTables_mono (bank : Option String) :
    ∀ (ts : List Table) (acc : List RawTxn), ∃ l, (foldTables bank ts acc).1 = acc ++ l := by
  intro ts
  induction ts with
  | nil => exact fun acc => ⟨[], by simp [foldTables]⟩
  | cons t rest ih =>
      intro acc
      unfold foldTables
      split
      · exact ⟨[], by simp⟩
      · rename_i r heq
        obtain ⟨l, hl⟩ := ih (acc ++ r)
        refine ⟨r ++ l, ?_⟩
        rw [hl, List.append_assoc]

lemma foldTables_empty (bank : Option String) :
    ∀ (ts : List Table), foldTables bank ts [] = ([], false) →
      ∀ t ∈ ts, tableTxnsE bank t = .ok [] := by
  intro ts
  induction ts with
  | nil => intro _ t ht; simp at ht
  | cons t rest ih =>
      intro h t' ht'
      unfold foldTables at h
      split at h
      · exact absurd (congrArg Prod.snd h) (by simp)
      · rename_i r heq
        obtain ⟨l, hl⟩ := foldTables_mono bank rest ([] ++ r)
        have h1 : ([] : List RawTxn) ++ r ++ l = [] := by
          rw [← hl]
          exact congrArg Prod.fst h
        have hr : r = [] := by
          rcases List.append_eq_nil.mp (List.append_eq_nil.mp h1).1 with ⟨-, h2⟩
          exact h2
        rcases List.mem_cons.mp ht' with rfl | hmem
        · rw [heq, hr]
        · exact ih (by simpa [hr] using h) t' hmem

lemma processPage_eq (bank : Option String) (p : Page) (acc : List RawTxn) :
    processPage bank p acc =
      (if (foldTables bank p.tables acc).2 then ((foldTables bank p.tables acc).1, true, false)
       else if (foldTables bank p.tables acc).1.isEmpty then
         match p.text with
         | none => ((foldTables bank p.tables acc).1, false, false)
         | some txt =>
             if txt = "" then ((foldTables bank p.tables acc).1, false, false)
             else ((foldTables bank p.tables acc).1 ++ scanText txt, false, true)
       else ((foldTables bank p.tables acc).1, false, false)) := by
  unfold processPage
  rcases foldTables bank p.tables acc with ⟨acc1, ab⟩
  rfl

lemma processGo_cons (bank : Option String) (p : Page) (rest : List Page)
    (acc : List RawTxn) (k : Nat) :
    processGo bank (p :: rest) acc k =
      match processPage bank p acc with
      | (acc1, true, _) => (acc1, [])
      | (acc1, false, sc) =>
          ((processGo bank rest acc1 (k + 1)).1,
           (if sc then [k] else []) ++ (processGo bank rest acc1 (k + 1)).2) := rfl

lemma processGo_nonempty (bank : Option String) :
    ∀ (pages : List Page) (acc : List RawTxn) (k : Nat), acc ≠ [] →
      (processGo bank pages acc k).2 = [] := by
  intro pages
  induction pages with
  | nil => intro acc k _; rfl
  | cons p rest ih =>
      intro acc k hacc
      obtain ⟨l, hl⟩ := foldTables_mono bank p.tables acc
      rw [processGo_cons, processPage_eq]
      cases hft : foldTables bank p.tables acc with
      | mk acc1 ab =>
          have hacc1 : acc1 ≠ [] := by
            have h2 : acc1 = acc ++ l := by rw [← hl, hft]
            rw [h2]
            simp [hacc]
          cases ab with
          | true => rfl
          | false =>
              have hie : acc1.isEmpty = false := by
                cases acc1 with
                | nil => exact absurd rfl hacc1
                | cons a t => rfl
              simp only [hie, Bool.false_eq_true, if_false]
              try dsimp only
              rw [ih acc1 (k + 1) hacc1]
              simp

/-- The per-page invariant behind the amended C4: if page `i`'s text is
scanned, the accumulated transactions were empty when the scan started, so
every table of every page up to and including page `i` yielded nothing. -/
lemma processGo_scan_inv (bank : Option String) :
    ∀ (pages : List Page) (k i : Nat),
      i ∈ (processGo bank pages [] k).2 →
      k ≤ i ∧ ∀ j, k ≤ j → j ≤ i →
        ∀ t ∈ (pages.getD (j - k) ⟨[], none⟩).tables, tableTxnsE bank t = .ok [] := by
  intro pages
  induction pages with
  | nil => intro k i h; simp [processGo] at h
  | cons p rest ih =>
      intro k i h
      rw [processGo_cons, processPage_eq] at h
      cases hft : foldTables bank p.tables [] with
      | mk acc1 ab =>
          rw [hft] at h
          dsimp only at h
          cases ab with
          | true => simp at h
          | false =>
              simp only [Bool.false_eq_true, if_false] at h
              by_cases hacc : acc1 = []
              · subst hacc
                have htabs := foldTables_empty bank p.tables hft
                simp only [List.isEmpty_nil, if_true] at h
                have step :
                    ∀ (acc2 : List RawTxn),
                      i ∈ (processGo bank rest acc2 (k + 1)).2 →
                      acc2 = [] →
                      k ≤ i ∧ ∀ j, k ≤ j → j ≤ i →
                        ∀ t ∈ ((p :: rest).getD (j - k) ⟨[], none⟩).tables,
                          tableTxnsE bank t = .ok [] := by
                  intro acc2 htail hacc2
                  subst hacc2
                  obtain ⟨hk1, hinv⟩ := ih (k + 1) i htail
                  refine ⟨le_trans (Nat.le_succ k) hk1, ?_⟩
                  intro j hkj hji t ht
                  rcases Nat.eq_or_lt_of_le hkj with rfl | hlt
                  · rw [Nat.sub_self] at ht
                    exact htabs t ht
                  · have hj1 : k + 1 ≤ j := hlt
                    have hsub : j - k = (j - (k + 1)) + 1 := by omega
                    rw [hsub] at ht
                    exact hinv j hj1 hji t ht
                rcases htext : p.text with - | txt
                · rw [htext] at h
                  dsimp only at h
                  exact step [] (by simpa using h) rfl
                · rw [htext] at h
                  dsimp only at h
                  by_cases he : txt = ""
                  · rw [if_pos he] at h
                    dsimp only at h
                    exact step [] (by simpa using h) rfl
                  · rw [if_neg he] at h
                    dsimp only at h
                    simp only [if_true, List.nil_append, List.mem_cons,
                      List.singleton_append] at h
                    rcases h with rfl | htail
                    · refine ⟨le_refl _, ?_⟩
                      intro j hkj hji t ht
                      have hjk : j = i := le_antisymm hji hkj
                      subst hjk
                      rw [Nat.sub_self] at ht
                      exact htabs t ht
                    · by_cases hsc : scanText txt = []
                      · rw [hsc] at htail
                        exact step [] htail rfl
                      · rw [processGo_nonempty bank rest _ _ hsc] at htail
                        simp at htail
              · have hie : acc1.isEmpty = false := by
                  cases acc1 with
                  | nil => exact absurd rfl hacc
                  | cons a t => rfl
                simp only [hie, Bool.false_eq_true, if_false] at h
                try dsimp only at h
                rw [processGo_nonempty bank rest acc1 (k + 1) hacc] at h
                simp at h

/-- Claim C4 as amended: the fallback line scanner visits page `i`'s text
only if every table of every page up to AND INCLUDING page `i` yielded zero
transactions (and earlier fallback scans produced nothing) — the check is
cumulative in page order, so a table result on a later page does not
suppress an earlier page's scan (see the counterexample). -/
theorem C4_amended (pages : List Page) (bank : Option String) (i : Nat)
    (hscan : i ∈ (extract_transactions pages bank).2) :
    ∀ j, j ≤ i → ∀ t ∈ (pages.getD j ⟨[], none⟩).tables, tableTxnsE bank t = .ok [] := by
  intro j hj t ht
  have := (processGo_scan_inv bank pages 0 i hscan).2 j (Nat.zero_le j) hj t
  rw [Nat.sub_zero] at this
  exact this ht

def pagesC4w : List Page :=
  [⟨[([] : Table)], some "hello world"⟩, ⟨[tableC3w], none⟩]

/-- Witness for C4's amended theorem at a concrete document: page 0 is
scanned, so its (row-less) table must have yielded no transactions. -/
theorem C4_amended_witness : tableTxnsE none ([] : Table) = .ok [] :=
  C4_amended pagesC4w none 0
    (by rw [show (extract_transactions pagesC4w none).2 = [0] from rfl]
        exact List.mem_singleton_self _)
    0 (le_refl 0) [] (by decide)

/-! ## Claim C5: the credit suffix of the single-column strategy -/

/-- Counterexample to claim C5: on a row whose captured description ends
with `' C'` (but not `'+ C'`), the emitted record has `is_credit = false` —
the code only marks `'+ C'` rows as credits; a bare `' C'` suffix is
stripped without setting the flag. -/
theorem C5_counterexample :
    (hdfcSearchM ("01/01/2024 | 10:15 STORE C 100.00".data.map
        (fun c => if c == '\n' then ' ' else c))).map (fun g => pyStripL g.2.1) =
      some "STORE C".data ∧
    endsWithL "STORE C".data [' ', 'C'] = true ∧
    (hdfcRow "01/01/2024 | 10:15 STORE C 100.00").map (fun r => (r.is_credit, r.description)) =
      some (false, "STORE") := by
  refine ⟨by decide, by decide, ?_⟩
  have h : hdfcSearchM ("01/01/2024 | 10:15 STORE C 100.00".data.map
      (fun c => if c == '\n' then ' ' else c)) =
      some ("01/01/2024".data, "STORE C".data, "100.00".data) := by decide
  rw [hdfcRow]
  rw [h]
  rfl

/-- Claim C5 as amended: in the single-column strategy, a captured
description whose stripped form ends with `'+ C'` yields `is_credit = true`
with the three-character suffix stripped before cleaning; one that ends
with `' C'` but not `'+ C'` has the two-character suffix stripped but
`is_credit = false`; with neither suffix, `is_credit = false` and the
description is kept whole. -/
theorem C5_amended (lineS : String) (dateC descC amtC : List Char)
    (hm : hdfcSearchM (lineS.data.map (fun c => if c == '\n' then ' ' else c)) =
      some (dateC, descC, amtC)) (r : RawTxn) (hr : hdfcRow lineS = some r) :
    (endsWithL (pyStripL descC) ['+', ' ', 'C'] = true →
      r.is_credit = true ∧
      r.description = clean_description
        ⟨pyStripL ((pyStripL descC).take ((pyStripL descC).length - 3))⟩) ∧
    (endsWithL (pyStripL descC) ['+', ' ', 'C'] = false →
      endsWithL (pyStripL descC) [' ', 'C'] = true →
      r.is_credit = false ∧
      r.description = clean_description
        ⟨pyStripL ((pyStripL descC).take ((pyStripL descC).length - 2))⟩) ∧
    (endsWithL (pyStripL descC) ['+', ' ', 'C'] = false →
      endsWithL (pyStripL descC) [' ', 'C'] = false →
      r.is_credit = false ∧ r.description = clean_description ⟨pyStripL descC⟩) := by
  unfold hdfcRow at hr
  dsimp only at hr
  rw [hm] at hr
  try dsimp only at hr
  repeat' split at hr
  all_goals first
    | exact Option.noConfusion hr
    | (injection hr with hr2; subst hr2; simp_all)

/-- Witness for C5's amended theorem: a concrete `'+ C'` row is a credit
with the suffix stripped. -/
theorem C5_amended_witness :
    ({ date := ⟨2024, 1, 1⟩,
       description := clean_description
         ⟨pyStripL ((pyStripL "STORE + C".data).take ((pyStripL "STORE + C".data).length - 3))⟩,
       amount := parse_amountL "100.00".data, currency := "INR",
       is_credit := true, category := none } : RawTxn).is_credit = true ∧
    ({ date := ⟨2024, 1, 1⟩,
       description := clean_description
         ⟨pyStripL ((pyStripL "STORE + C".data).take ((pyStripL "STORE + C".data).length - 3))⟩,
       amount := parse_amountL "100.00".data, currency := "INR",
       is_credit := true, category := none } : RawTxn).description =
      clean_description
        ⟨pyStripL ((pyStripL "STORE + C".data).take ((pyStripL "STORE + C".data).length - 3))⟩ :=
  (C5_amended "01/01/2024 | 10:15 STORE + C 100.00" "01/01/2024".data "STORE + C".data
      "100.00".data (by decide) _ rfl).1 (by decide)

/-! ## Claim C7: totality of `can_parse` -/

def tableC7 : Table := [[], [some "x"]]

/-- Claim C7 against the code: `AxisParser.can_parse` is NOT total — on a
table of at least two rows whose first row is empty it raises `IndexError`
at `str(raw_headers[0])` (the `.error ()` value); the other two strategies'
`can_parse` always return a boolean. -/
theorem C7_can_parse_totality :
    (axisCanParseE tableC7 = .error ()) ∧
    (∀ t : Table, 2 ≤ t.length → t.headD [] = [] → axisCanParseE t = .error ()) ∧
    (∀ t : Table, canParseE .hdfc t = .ok (hdfcCanParse t)) ∧
    (∀ t : Table, canParseE .standard t = .ok (standardCanParse t)) := by
  refine ⟨rfl, ?_, fun _ => rfl, fun _ => rfl⟩
  intro t h2 hh
  cases t with
  | nil => simp at h2
  | cons r0 t' =>
      cases t' with
      | nil => simp at h2
      | cons r1 rest =>
          simp only [List.headD_cons] at hh
          subst hh
          rfl

/-- Witness for C7 at a concrete input: a three-row table with an empty
first row makes `AxisParser.can_parse` raise. -/
theorem C7_can_parse_totality_witness :
    axisCanParseE [[], [some "a"], []] = .error () :=
  C7_can_parse_totality.2.1 [[], [some "a"], []] (by decide) (by decide)

/-! ## Transaction classification (`cards.py`, `upload_statement`) -/

/-- A persisted transaction (`models.Transaction`), restricted to the
fields the pipeline writes and the report reads. -/
structure CTxn where
  date : PyDate
  description : String
  amount : ℚ
  currency : String
  category : String
  is_credit : Bool
  is_bill_payment : Bool
  is_cashback : Bool
  is_hidden_charge : Bool
deriving Repr

def billMarkers : List String := ["BBPS", "MB/IB PAYMENT", "NETBANKING TRANSFER", "DUAL PYT"]

def hiddenMarkers : List String := ["JOINING FEE", "GST", "FUEL SURCHARGE"]

/-- The per-transaction classification of `upload_statement`: the three
keyword flags from the uppercased description (cashback additionally
requires a credit), and the final category — hidden-charge override, then
truthy bank-provided category, then the text classifier's prediction
(`predict` abstracts `categorizer.predict`). -/
def classifyTxn (predict : String → String) (t : RawTxn) : CTxn :=
  let descU := pyUpper t.description
  let is_bill_payment := billMarkers.any fun h => strContains descU h
  let is_cashback := strContains descU "CASHBACK" && t.is_credit
  let is_hidden_charge := hiddenMarkers.any fun h => strContains descU h
  let category :=
    if is_hidden_charge then "Hidden Charges"
    else
      match t.category with
      | some c => if c ≠ "" then c else predict t.description
      | none => predict t.description
  { date := t.date, description := t.description, amount := t.amount,
    currency := t.currency, category := category, is_credit := t.is_credit,
    is_bill_payment := is_bill_payment, is_cashback := is_cashback,
    is_hidden_charge := is_hidden_charge }

/-! ## Claims C9 and C2: classification -/

/-- Claim C9: bill-payment detection is direction-agnostic — for every
extracted transaction, `is_bill_payment` is set exactly when the uppercased
description contains one of the four fixed markers `BBPS`, `MB/IB PAYMENT`,
`NETBANKING TRANSFER`, `DUAL PYT`, and the flag does not depend on
`is_credit`: flipping the credit flag leaves it unchanged. -/
theorem C9_bill_payment_direction_agnostic (predict : String → String) (t : RawTxn) :
    ((classifyTxn predict t).is_bill_payment =
      (strContains (pyUpper t.description) "BBPS" ||
       strContains (pyUpper t.description) "MB/IB PAYMENT" ||
       strContains (pyUpper t.description) "NETBANKING TRANSFER" ||
       strContains (pyUpper t.description) "DUAL PYT")) ∧
    (classifyTxn predict t).is_bill_payment =
      (classifyTxn predict { t with is_credit := !t.is_credit }).is_bill_payment := by
  constructor
  · simp [classifyTxn, billMarkers, Bool.or_assoc]
  · simp [classifyTxn, billMarkers]

/-- Claim C2: final category resolution follows the strict priority —
a hidden-charge marker in the description forces `"Hidden Charges"`
regardless of any issuer-supplied category; otherwise a truthy
issuer-supplied category is used; otherwise the text classifier's
prediction.  (The extraction strategies never produce an empty-string
category, so "present" coincides with "truthy": see
`axis_category_not_blank` below.) -/
theorem C2_category_priority (predict : String → String) (t : RawTxn) :
    (hiddenMarkers.any (fun h => strContains (pyUpper t.description) h) = true →
      (classifyTxn predict t).category = "Hidden Charges") ∧
    (hiddenMarkers.any (fun h => strContains (pyUpper t.description) h) = false →
      (∀ c, t.category = some c → c ≠ "" → (classifyTxn predict t).category = c) ∧
      (t.category = none → (classifyTxn predict t).category = predict t.description)) := by
  constructor
  · intro h
    simp [classifyTxn, h]
  · intro h
    constructor
    · intro c hc hne
      simp [classifyTxn, h, hc, hne]
    · intro hc
      simp [classifyTxn, h, hc]

/-- Witness for C2 at a concrete transaction: a `GST` description with an
issuer-supplied category `"Food"` still resolves to `"Hidden Charges"`. -/
theorem C2_category_priority_witness :
    (classifyTxn (fun _ => "Uncategorized")
      { date := ⟨2024, 1, 1⟩, description := "IGST ON FEES", amount := 5,
        currency := "INR", is_credit := false, category := some "Food" }).category =
      "Hidden Charges" :=
  (C2_category_priority (fun _ => "Uncategorized")
    { date := ⟨2024, 1, 1⟩, description := "IGST ON FEES", amount := 5,
      currency := "INR", is_credit := false, category := some "Food" }).1 (by decide)

/-! ## Report aggregation (`cards.py`, `get_report`) -/

structure Report where
  total_spend : ℚ
  total_cashback : ℚ
  total_hidden_charges : ℚ
  net_spend : ℚ
  category_spend : List (String × ℚ)
  largest_transaction : Option CTxn
  transaction_count : Nat
  cashback_count : Nat
  cashback_reversal_count : Nat
  hidden_charge_count : Nat
  refund_count : Nat

/-- One iteration of the spending loop: skip hidden charges, bill payments
and cashback; debits add to the total, credits subtract; both are kept in
the spending list. -/
def spendStep (acc : ℚ × List CTxn) (t : CTxn) : ℚ × List CTxn :=
  if t.is_hidden_charge then acc
  else if t.is_bill_payment then acc
  else if t.is_cashback then acc
  else if !t.is_credit then (acc.1 + t.amount, acc.2 ++ [t])
  else (acc.1 - t.amount, acc.2 ++ [t])

/-- One iteration of the cashback loop: cashback credits add, cashback
reversals (debits) subtract. -/
def cashStep (acc : ℚ × List CTxn) (t : CTxn) : ℚ × List CTxn :=
  if t.is_cashback then
    if t.is_credit then (acc.1 + t.amount, acc.2 ++ [t])
    else (acc.1 - t.amount, acc.2 ++ [t])
  else acc

/-- `category_spend[k] = category_spend.get(k, 0) + v` on an
insertion-ordered dictionary. -/
def dictAdd (m : List (String × ℚ)) (k : String) (v : ℚ) : List (String × ℚ) :=
  if m.any (fun kv => kv.1 = k) then
    m.map fun kv => if kv.1 = k then (kv.1, kv.2 + v) else kv
  else m ++ [(k, v)]

/-- One iteration of the category-breakdown loop over the spending list. -/
def catStep (m : List (String × ℚ)) (t : CTxn) : List (String × ℚ) :=
  if !t.is_credit then dictAdd m t.category t.amount
  else dictAdd m t.category (-t.amount)

/-- Python `max(ts, key=amount)` over the debit spending list: the first
transaction of maximal amount, `none` when the list is empty. -/
def maxByAmount (ts : List CTxn) : Option CTxn :=
  ts.foldl
    (fun best t =>
      match best with
      | none => some t
      | some b => if b.amount < t.amount then some t else some b)
    none

/-- `get_report`: the aggregation endpoint over all of one card's
transactions. -/
def get_report (ts : List CTxn) : Report :=
  let spend := ts.foldl spendStep (0, [])
  let cash := ts.foldl cashStep (0, [])
  let hiddenTs := ts.filter fun t => t.is_hidden_charge
  let total_hidden := (hiddenTs.map fun t => t.amount).sum
  let debits := spend.2.filter fun t => !t.is_credit
  { total_spend := spend.1, total_cashback := cash.1,
    total_hidden_charges := total_hidden, net_spend := spend.1 - cash.1,
    category_spend := spend.2.foldl catStep [],
    largest_transaction := maxByAmount debits,
    transaction_count := debits.length,
    cashback_count := (cash.2.filter fun t => t.is_credit).length,
    cashback_reversal_count := (cash.2.filter fun t => !t.is_credit).length,
    hidden_charge_count := hiddenTs.length,
    refund_count := (spend.2.filter fun t => t.is_credit).length }

/-! ## Claim C1: the report totals -/

/-- Membership in the spending set, in the code's skip order. -/
def spendKeep (t : CTxn) : Bool := !t.is_hidden_charge && !t.is_bill_payment && !t.is_cashback

/-- The signed contribution of a spending transaction. -/
def signedSpend (t : CTxn) : ℚ := if t.is_credit then -t.amount else t.amount

/-- The signed contribution of a cashback transaction. -/
def signedCash (t : CTxn) : ℚ := if t.is_credit then t.amount else -t.amount

lemma foldl_spendStep (ts : List CTxn) (q : ℚ) (l : List CTxn) :
    ts.foldl spendStep (q, l) =
      (q + ((ts.filter spendKeep).map signedSpend).sum, l ++ ts.filter spendKeep) := by
  induction ts generalizing q l with
  | nil => simp
  | cons t ts ih =>
      by_cases h1 : t.is_hidden_charge <;> by_cases h2 : t.is_bill_payment <;>
        by_cases h3 : t.is_cashback <;> by_cases h4 : t.is_credit <;>
        simp [spendStep, spendKeep, signedSpend, h1, h2, h3, h4, ih, add_assoc,
          sub_eq_add_neg]

lemma foldl_cashStep (ts : List CTxn) (q : ℚ) (l : List CTxn) :
    ts.foldl cashStep (q, l) =
      (q + ((ts.filter fun t => t.is_cashback).map signedCash).sum,
       l ++ ts.filter fun t => t.is_cashback) := by
  induction ts generalizing q l with
  | nil => simp
  | cons t ts ih =>
      by_cases h1 : t.is_cashback <;> by_cases h2 : t.is_credit <;>
        simp [cashStep, signedCash, h1, h2, ih, add_assoc, sub_eq_add_neg]

/-- The spec's concrete report input: one debit 100 with category A, one
credit cashback 10, one hidden charge 5. -/
def exampleC1 : List CTxn :=
  [{ date := ⟨2024, 1, 1⟩, description := "SHOP", amount := 100, currency := "INR",
     category := "A", is_credit := false, is_bill_payment := false, is_cashback := false,
     is_hidden_charge := false },
   { date := ⟨2024, 1, 2⟩, description := "CASHBACK EARNED", amount := 10, currency := "INR",
     category := "Rewards", is_credit := true, is_bill_payment := false, is_cashback := true,
     is_hidden_charge := false },
   { date := ⟨2024, 1, 3⟩, description := "JOINING FEE", amount := 5, currency := "INR",
     category := "Hidden Charges", is_credit := false, is_bill_payment := false,
     is_cashback := false, is_hidden_charge := true }]

/-- Claim C1: for every transaction set, `total_spend` is the signed sum
(debits add, credits subtract) over the transactions that are neither
bill-payment nor cashback nor hidden-charge; `total_cashback` is the signed
sum (credits add, debits subtract) over the cashback-flagged transactions;
`total_hidden_charges` is the direction-agnostic sum over hidden-charge
transactions; `net_spend = total_spend - total_cashback`; and the spec's
concrete three-transaction input yields `total_spend = 100`,
`total_cashback = 10`, `total_hidden_charges = 5`, `net_spend = 90`,
`category_spend = {A: 100}`. -/
theorem C1_report_totals (ts : List CTxn) :
    ((get_report ts).total_spend =
      ((ts.filter fun t => !t.is_bill_payment && !t.is_cashback && !t.is_hidden_charge).map
        (fun t => if t.is_credit then -t.amount else t.amount)).sum) ∧
    ((get_report ts).total_cashback =
      ((ts.filter fun t => t.is_cashback).map
        (fun t => if t.is_credit then t.amount else -t.amount)).sum) ∧
    ((get_report ts).total_hidden_charges =
      ((ts.filter fun t => t.is_hidden_charge).map fun t => t.amount).sum) ∧
    ((get_report ts).net_spend = (get_report ts).total_spend - (get_report ts).total_cashback) ∧
    ((get_report exampleC1).total_spend = 100 ∧
     (get_report exampleC1).total_cashback = 10 ∧
     (get_report exampleC1).total_hidden_charges = 5 ∧
     (get_report exampleC1).net_spend = 90 ∧
     (get_report exampleC1).category_spend = [("A", 100)]) := by
  have hpred : ∀ t : CTxn,
      (!t.is_bill_payment && !t.is_cashback && !t.is_hidden_charge) = spendKeep t := by
    intro t
    cases hb : t.is_bill_payment <;> cases hc : t.is_cashback <;>
      cases hh : t.is_hidden_charge <;> simp [spendKeep, hb, hc, hh]
  refine ⟨?_, ?_, ?_, ?_, ?_, ?_, ?_, ?_, ?_⟩
  · rw [List.filter_congr (fun t _ => hpred t)]
    simp only [get_report, foldl_spendStep, zero_add, List.nil_append]
    rfl
  · simp only [get_report, foldl_cashStep, zero_add, List.nil_append]
    rfl
  · simp [get_report]
  · simp [get_report, foldl_spendStep, foldl_cashStep]
  · simp [get_report, exampleC1, spendStep]
    try norm_num
  · simp [get_report, exampleC1, cashStep]
    try norm_num
  · simp [get_report, exampleC1]
    try norm_num
  · simp [get_report, exampleC1, spendStep, cashStep]
    try norm_num
  · simp [get_report, exampleC1, spendStep, catStep, dictAdd]
    try norm_num

example : parse_amount "1,234.56" = 123456 / 100 := by
  have h : pyFloatR? ("1,234.56".data.filter isAmtChar) = some (false, 1234, 56, 2) := by decide
  rw [parse_amount, h]; norm_num [ratOfParts]

example : parse_amount "-500.00" = -500 := by
  have h : pyFloatR? ("-500.00".data.filter isAmtChar) = some (true, 500, 0, 2) := by decide
  rw [parse_amount, h]; norm_num [ratOfParts]

example : parse_amount "abc" = 0 := by
  have h : pyFloatR? ("abc".data.filter isAmtChar) = none := by decide
  rw [parse_amount, h]

end CCWrapped
